import Mathlib

/-!
Verification of the muserial completion-based bridge: a shallow embedding of
the reactor submission layer (src/reactor.rs), the duplex bridge state
machine (src/uart_tty.rs, with the earlier variant src/uart_tty_sm.rs where
it differs), and the append log buffer (src/transcript.rs), together with
theorems settling the specification claims.

Bytes are modelled as natural numbers; `Vec<u8>` becomes `List Nat`.
Interior mutability (`Cell`, `RefCell`) becomes functional record update.
A Rust panic is modelled as `none`; closures registered as continuations are
not stored (their behaviour is the named handler functions themselves), so a
submitted action records only its data and identifier.
-/

namespace Muserial

/-- In src/uart_tty.rs: `const DEFAULT_READ_SIZE: usize = 1024`. -/
def DEFAULT_READ_SIZE : Nat := 1024

/-- In src/transcript.rs: `const TRANSCRIPT_BUFFER_SIZE: usize = 4096`. -/
def TRANSCRIPT_BUFFER_SIZE : Nat := 4096

/-- Rust `Vec::resize(n, 0)`: truncate to `n` or extend with zero bytes. -/
def vecResize (l : List Nat) (n : Nat) : List Nat :=
  l.take n ++ List.replicate (n - l.length) 0

/-- src/reactor.rs `enum Action` (data and user_data identifier only; the
continuation closure is modelled by the named handler functions). -/
inductive Action where
  | Read (fd : Int) (buf : List Nat) (id : Nat)
  | Write (fd : Int) (buf : List Nat) (offset : Nat) (id : Nat)
  | Cancel (target : Nat) (id : Nat)
deriving DecidableEq, Repr

/-- The user_data identifier carried by an action. -/
def Action.userData : Action → Nat
  | .Read _ _ id => id
  | .Write _ _ _ id => id
  | .Cancel _ id => id

/-- src/reactor.rs `struct Submitter { actions: Vec<Action>, next_id: u64 }`. -/
structure Submitter where
  nextId : Nat
  actions : List Action
deriving DecidableEq, Repr

/-- src/reactor.rs `Submitter::submit_read`: take the current next_id,
increment it, push the Read action, return the id. -/
def Submitter.submit_read (s : Submitter) (fd : Int) (buf : List Nat) :
    Nat × Submitter :=
  (s.nextId, ⟨s.nextId + 1, s.actions ++ [Action.Read fd buf s.nextId]⟩)

/-- src/reactor.rs `Submitter::submit_write`. -/
def Submitter.submit_write (s : Submitter) (fd : Int) (buf : List Nat)
    (offset : Nat) : Nat × Submitter :=
  (s.nextId, ⟨s.nextId + 1, s.actions ++ [Action.Write fd buf offset s.nextId]⟩)

/-- src/reactor.rs `Submitter::submit_cancel`. -/
def Submitter.submit_cancel (s : Submitter) (target : Nat) :
    Nat × Submitter :=
  (s.nextId, ⟨s.nextId + 1, s.actions ++ [Action.Cancel target s.nextId]⟩)

/-- src/transcript.rs `struct Transcript` (the open file is identified by its
descriptor; path and compression flag are irrelevant to the buffer logic). -/
structure Transcript where
  fd : Int
  offset : Nat
  current_buf : List Nat
  flushing : Bool
  bufs_to_be_flushed : List (List Nat)
deriving DecidableEq, Repr

/-- src/transcript.rs `write_buf`: submit a positioned write of `buf` to the
transcript file at the current offset (the returned id is discarded). -/
def write_buf (r : Submitter) (t : Transcript) (buf : List Nat) :
    Submitter × Transcript :=
  let idr := r.submit_write t.fd buf t.offset
  (idr.2, t)

/-- src/transcript.rs `log_to_transcript`: merge `buf` into `current_buf`;
when capacity would be reached or exceeded, hand the filled buffer off,
either submitting it (when not flushing) or queuing it on the backlog. -/
def log_to_transcript (r : Submitter) (t : Transcript) (buf : List Nat) :
    Submitter × Transcript :=
  let new_buf_size := buf.length + t.current_buf.length
  if new_buf_size < TRANSCRIPT_BUFFER_SIZE then
    (r, { t with current_buf := t.current_buf ++ buf })
  else
    let buf_to_flush := t.current_buf
    let t := { t with current_buf := [] }
    let pair :=
      if new_buf_size = TRANSCRIPT_BUFFER_SIZE then
        (t, buf_to_flush ++ buf)
      else
        ({ t with current_buf := buf }, buf_to_flush)
    let t := pair.1
    let buf_to_flush := pair.2
    if t.flushing then
      (r, { t with bufs_to_be_flushed := t.bufs_to_be_flushed ++ [buf_to_flush] })
    else
      write_buf r { t with flushing := true } buf_to_flush

/-- src/transcript.rs `handle_buffer_ev`: completion of the outstanding
transcript write.  `none` models a panic (assert failure, zero or negative
result).  On a short write the remainder is resubmitted at the advanced
offset; on an exact write the next backlog entry (if any) is submitted,
otherwise flushing stops. -/
def handle_buffer_ev (r : Submitter) (t : Transcript) (result : Int)
    (buf : List Nat) : Option (Submitter × Transcript) :=
  if t.flushing = false then none
  else if result = 0 then none
  else if result < 0 then none
  else
    let t := { t with offset := t.offset + result.toNat }
    if result.toNat < buf.length then
      some (write_buf r t (buf.drop result.toNat))
    else
      match t.bufs_to_be_flushed with
      | next :: rest =>
          some (write_buf r { t with bufs_to_be_flushed := rest } next)
      | [] => some (r, { t with flushing := false })

/-- src/transcript.rs `start_transcript_teardown`: when a flush is already in
flight, nothing to do; otherwise the backlog must be empty (assert), and a
non-empty `current_buf` is swapped out and submitted. -/
def start_transcript_teardown (r : Submitter) (t : Transcript) :
    Option (Submitter × Transcript) :=
  if t.flushing then some (r, t)
  else if t.bufs_to_be_flushed ≠ [] then none
  else if t.current_buf = [] then some (r, t)
  else
    let new_buf := t.current_buf
    some (write_buf r { t with flushing := true, current_buf := [] } new_buf)

/-- An io_uring submission queue entry as built in src/reactor.rs
(`opcode::Read` / `opcode::Write` / `opcode::AsyncCancel` with user_data);
only the data relevant to the claims is recorded. -/
inductive SqEntry where
  | Read (fd : Int) (len : Nat) (ud : Nat)
  | Write (fd : Int) (len : Nat) (offset : Nat) (ud : Nat)
  | Cancel (target : Nat) (ud : Nat)
deriving DecidableEq, Repr

/-- The kernel submission queue: already-queued entries plus the fixed ring
capacity.  `sq.push` fails exactly when the ring is full. -/
structure Sq where
  cap : Nat
  entries : List SqEntry
deriving DecidableEq, Repr

/-- Rust `sq.push(&entry)` followed by `map_err`: pushing onto a full ring
is an error, mapped to an `io-uring push error` I/O error — it is returned
to the caller, not retried. -/
def Sq.push (sq : Sq) (e : SqEntry) : Except String Sq :=
  if sq.entries.length < sq.cap then
    Except.ok { sq with entries := sq.entries ++ [e] }
  else
    Except.error "io-uring push error"

/-- src/reactor.rs free function `submit_read(sq, fd, buf, user_data)`. -/
def sq_submit_read (sq : Sq) (fd : Int) (buf : List Nat) (ud : Nat) :
    Except String Sq :=
  sq.push (SqEntry.Read fd buf.length ud)

/-- src/reactor.rs free function `submit_write(sq, fd, buf, offset, user_data)`. -/
def sq_submit_write (sq : Sq) (fd : Int) (buf : List Nat) (offset : Nat)
    (ud : Nat) : Except String Sq :=
  sq.push (SqEntry.Write fd buf.length offset ud)

/-- src/reactor.rs free function `submit_cancel(sq, op_to_cancel, user_data)`. -/
def sq_submit_cancel (sq : Sq) (target : Nat) (ud : Nat) : Except String Sq :=
  sq.push (SqEntry.Cancel target ud)

/-- src/reactor.rs `enum OpInProgress` (buffers kept, continuations modelled
by the named handler functions). -/
inductive OpInProgress where
  | ReadOp (buf : List Nat)
  | WriteOp (buf : List Nat)
  | OtherOp
deriving DecidableEq, Repr

/-- src/reactor.rs `struct Reactor`: the in-progress map (an association
list keyed by user_data), the ring, and the next operation identifier. -/
structure Reactor where
  in_progress : List (Nat × OpInProgress)
  ring : Sq
  next_id : Nat
deriving DecidableEq, Repr

/-- src/reactor.rs `Reactor::submit`: push the entry onto the ring (a push
error is returned to the caller as `Except.error`), then register the
operation under its user_data; if that user_data is already registered the
process panics (`none`) rather than continuing with a silently replaced
entry. -/
def Reactor.submit (rc : Reactor) (a : Action) :
    Option (Except String Reactor) :=
  match a with
  | Action.Cancel target ud =>
    match sq_submit_cancel rc.ring target ud with
    | Except.error e => some (Except.error e)
    | Except.ok ring =>
      if (rc.in_progress.lookup ud).isSome then none
      else
        let ip := rc.in_progress ++ [(ud, OpInProgress.OtherOp)]
        some (Except.ok { rc with ring := ring, in_progress := ip })
  | Action.Read fd buf ud =>
    match sq_submit_read rc.ring fd buf ud with
    | Except.error e => some (Except.error e)
    | Except.ok ring =>
      if (rc.in_progress.lookup ud).isSome then none
      else
        let ip := rc.in_progress ++ [(ud, OpInProgress.ReadOp buf)]
        some (Except.ok { rc with ring := ring, in_progress := ip })
  | Action.Write fd buf offset ud =>
    match sq_submit_write rc.ring fd buf offset ud with
    | Except.error e => some (Except.error e)
    | Except.ok ring =>
      if (rc.in_progress.lookup ud).isSome then none
      else
        let ip := rc.in_progress ++ [(ud, OpInProgress.WriteOp buf)]
        some (Except.ok { rc with ring := ring, in_progress := ip })

/-- The `for action in reactor_submitter.actions { self.submit(action)? }`
loop shared by `Reactor::run` and `Reactor::with_submitter`: the first
submission error aborts the loop and propagates to the caller. -/
def Reactor.submitAll (rc : Reactor) : List Action →
    Option (Except String Reactor)
  | [] => some (Except.ok rc)
  | a :: rest =>
    match rc.submit a with
    | none => none
    | some (Except.error e) => some (Except.error e)
    | some (Except.ok rc) => rc.submitAll rest

/-- src/reactor.rs `Reactor::run`, read-completion dispatch: before the
continuation is invoked, the buffer is resized to the byte count when the
result is non-negative, and cleared when the result is negative. -/
def dispatch_read_buf (result : Int) (buf : List Nat) : List Nat :=
  if 0 ≤ result then vecResize buf result.toNat else []

/-- src/uart_tty.rs `enum State` for one bridge direction. -/
inductive State where
  | Reading (id : Nat)
  | Processing
  | Writing (id : Nat)
  | TearDown (id : Nat)
  | TornDown
deriving DecidableEq, Repr

/-- src/uart_tty.rs `struct UartTtySM` (endpoints are identified by their raw
file descriptors; the shared `Rc`/`Cell` plumbing becomes record update). -/
structure UartTtySM where
  tty : Int
  uart : Int
  uart_state : State
  tty_state : State
  transcript : Option Transcript
deriving DecidableEq, Repr

/-- src/uart_tty.rs `start_uart_teardown`: each direction independently goes
`Processing ↦ TornDown`, or submits a cancel of its outstanding operation and
goes to `TearDown(cancel_id)`; any other state panics (`none`).  Afterwards,
when a transcript is present, its teardown is started unconditionally. -/
def teardown_one_dir (r : Submitter) (st : State) :
    Option (Submitter × State) :=
  match st with
  | State.Processing => some (r, State.TornDown)
  | State.Reading id =>
    let cr := r.submit_cancel id
    some (cr.2, State.TearDown cr.1)
  | State.Writing id =>
    let cr := r.submit_cancel id
    some (cr.2, State.TearDown cr.1)
  | _ => none

/-- src/uart_tty.rs `start_uart_teardown`, continued: the tty direction and
then the uart direction are torn down as above, and afterwards, when a
transcript is present, its teardown is started unconditionally. -/
def start_uart_teardown (r : Submitter) (sm : UartTtySM) :
    Option (Submitter × UartTtySM) :=
  match teardown_one_dir r sm.tty_state with
  | none => none
  | some (r, tty_st) =>
    match teardown_one_dir r sm.uart_state with
    | none => none
    | some (r, uart_st) =>
      let sm := { sm with tty_state := tty_st, uart_state := uart_st }
      match sm.transcript with
      | none => some (r, sm)
      | some t =>
          match start_transcript_teardown r t with
          | none => none
          | some (r, t) => some (r, { sm with transcript := some t })

/-- src/uart_tty.rs `handle_other_ev`: the cancel-completion continuation;
it ignores its arguments and performs no submissions and no transitions. -/
def handle_other_ev (r : Submitter) (sm : UartTtySM) (_result : Int)
    (_user_data : Nat) : Submitter × UartTtySM :=
  (r, sm)

/-- src/uart_tty.rs `tty_read_done`: completion of the console read.  In
`Reading` the state moves to `Processing`; in `TearDown` the completion is
discarded; any other state panics.  A negative result panics; a buffer
containing 0x0f starts teardown without forwarding; otherwise the buffer is
written to the UART and the state becomes `Writing`.  (No zero-byte case: an
empty buffer simply does not contain 0x0f and is submitted as a write.) -/
def tty_read_done (r : Submitter) (sm : UartTtySM) (result : Int)
    (buf : List Nat) : Option (Submitter × UartTtySM) :=
  match sm.tty_state with
  | State.Reading _ =>
    let sm := { sm with tty_state := State.Processing }
    if result < 0 then none
    else if buf.contains 0x0f then start_uart_teardown r sm
    else
      let ir := r.submit_write sm.uart buf 0
      match sm.tty_state with
      | State.Processing =>
          some (ir.2, { sm with tty_state := State.Writing ir.1 })
      | _ => none
  | State.TearDown _ => some (r, sm)
  | _ => none

/-- src/uart_tty_sm.rs `tty_read_done` (earlier variant of the same handler):
identical except that any result `≤ 0` — including a zero-byte read — panics
instead of only negative results. -/
def tty_read_done_v1 (r : Submitter) (sm : UartTtySM) (result : Int)
    (buf : List Nat) : Option (Submitter × UartTtySM) :=
  match sm.tty_state with
  | State.Reading _ =>
    let sm := { sm with tty_state := State.Processing }
    if result ≤ 0 then none
    else if buf.contains 0x0f then start_uart_teardown r sm
    else
      let ir := r.submit_write sm.uart buf 0
      match sm.tty_state with
      | State.Processing =>
          some (ir.2, { sm with tty_state := State.Writing ir.1 })
      | _ => none
  | State.TearDown _ => some (r, sm)
  | _ => none

/-- src/uart_tty.rs `uart_write_done`: completion of a write to the UART
(console→UART direction, tracked in `tty_state`).  `TearDown` and `TornDown`
discard the completion.  Zero bytes written starts teardown; a negative
result panics; a short write resubmits the unwritten suffix to the UART;
a full write resizes the buffer and resubmits the console read. -/
def uart_write_done (r : Submitter) (sm : UartTtySM) (result : Int)
    (buf : List Nat) : Option (Submitter × UartTtySM) :=
  match sm.tty_state with
  | State.Writing _ =>
    let sm := { sm with tty_state := State.Processing }
    if result = 0 then start_uart_teardown r sm
    else if result < 0 then none
    else if result.toNat < buf.length then
      let new_buf := buf.drop result.toNat
      let ir := r.submit_write sm.uart new_buf 0
      match sm.tty_state with
      | State.Processing =>
          some (ir.2, { sm with tty_state := State.Writing ir.1 })
      | _ => none
    else
      let buf := vecResize buf DEFAULT_READ_SIZE
      let ir := r.submit_read sm.tty buf
      match sm.tty_state with
      | State.Processing =>
          some (ir.2, { sm with tty_state := State.Reading ir.1 })
      | _ => none
  | State.TearDown _ => some (r, sm)
  | State.TornDown => some (r, sm)
  | _ => none

/-- src/uart_tty.rs `uart_read_done`: completion of the UART read (UART→
console direction, tracked in `uart_state`).  Zero bytes starts teardown; a
negative result panics; otherwise the bytes are first appended to the
transcript (when one is present) and then written to the console. -/
def uart_read_done (r : Submitter) (sm : UartTtySM) (result : Int)
    (buf : List Nat) : Option (Submitter × UartTtySM) :=
  match sm.uart_state with
  | State.Reading _ =>
    let sm := { sm with uart_state := State.Processing }
    if result = 0 then start_uart_teardown r sm
    else if result < 0 then none
    else
      let rsm :=
        match sm.transcript with
        | some t =>
            let rt := log_to_transcript r t buf
            (rt.1, { sm with transcript := some rt.2 })
        | none => (r, sm)
      let r := rsm.1
      let sm := rsm.2
      let ir := r.submit_write sm.tty buf 0
      match sm.uart_state with
      | State.Processing =>
          some (ir.2, { sm with uart_state := State.Writing ir.1 })
      | _ => none
  | State.TearDown _ => some (r, sm)
  | State.TornDown => some (r, sm)
  | _ => none

/-- src/uart_tty.rs `tty_write_done`: completion of a write to the console
(UART→console direction, tracked in `uart_state`).  Zero bytes starts
teardown; a negative result panics; a short write resubmits the unwritten
suffix to the console; a full write resubmits the UART read. -/
def tty_write_done (r : Submitter) (sm : UartTtySM) (result : Int)
    (buf : List Nat) : Option (Submitter × UartTtySM) :=
  match sm.uart_state with
  | State.Writing _ =>
    let sm := { sm with uart_state := State.Processing }
    if result = 0 then start_uart_teardown r sm
    else if result < 0 then none
    else if result.toNat < buf.length then
      let new_buf := buf.drop result.toNat
      let ir := r.submit_write sm.tty new_buf 0
      match sm.uart_state with
      | State.Processing =>
          some (ir.2, { sm with uart_state := State.Writing ir.1 })
      | _ => none
    else
      let buf := vecResize buf DEFAULT_READ_SIZE
      let ir := r.submit_read sm.uart buf
      match sm.uart_state with
      | State.Processing =>
          some (ir.2, { sm with uart_state := State.Reading ir.1 })
      | _ => none
  | State.TearDown _ => some (r, sm)
  | State.TornDown => some (r, sm)
  | _ => none

/-- The positioned writes an execution step handed to the reactor: the Write
actions a submitter gained over another, as (buffer, offset) pairs. -/
def newWrites (r r2 : Submitter) : List (List Nat × Nat) :=
  (r2.actions.drop r.actions.length).filterMap fun a =>
    match a with
    | Action.Write _ buf off _ => some (buf, off)
    | _ => none

/-- The externally visible events driving the transcript log buffer: an
`append` from the bridge (`log_to_transcript`), the bridge-side `teardown`
request (`start_transcript_teardown`), and the reactor delivering the
`complete`-tion of the outstanding transcript write (`handle_buffer_ev`). -/
inductive TranscriptEv where
  | append (buf : List Nat)
  | teardown
  | complete (result : Int)
deriving DecidableEq, Repr

/-- One transcript execution state: the submitter, the transcript, the
buffers of transcript writes submitted but not yet completed, the cumulative
bytes reported written by completions, and the history of submitted writes,
most recent first, as (offset, length, cumulative-bytes-written-when-
submitted) triples. -/
structure TranscriptRun where
  sub : Submitter
  ts : Transcript
  inflight : List (List Nat)
  written : Nat
  subsRev : List (Nat × Nat × Nat)
deriving DecidableEq, Repr

/-- One step of the transcript log buffer, as driven by the bridge and the
reactor: `none` models a panic inside the transcript code, and a completion
can only be delivered for a write that is actually outstanding. -/
def TranscriptRun.step (st : TranscriptRun) (e : TranscriptEv) :
    Option TranscriptRun :=
  match e with
  | TranscriptEv.append buf =>
    let rt := log_to_transcript st.sub st.ts buf
    let ws := newWrites st.sub rt.1
    some { sub := rt.1, ts := rt.2,
           inflight := st.inflight ++ ws.map Prod.fst,
           written := st.written,
           subsRev := (ws.map fun w => (w.2, w.1.length, st.written)) ++ st.subsRev }
  | TranscriptEv.teardown =>
    match start_transcript_teardown st.sub st.ts with
    | none => none
    | some rt =>
      let ws := newWrites st.sub rt.1
      some { sub := rt.1, ts := rt.2,
             inflight := st.inflight ++ ws.map Prod.fst,
             written := st.written,
             subsRev := (ws.map fun w => (w.2, w.1.length, st.written)) ++ st.subsRev }
  | TranscriptEv.complete result =>
    match st.inflight with
    | [] => none
    | buf :: rest =>
      match handle_buffer_ev st.sub st.ts result buf with
      | none => none
      | some rt =>
        let ws := newWrites st.sub rt.1
        let w2 := st.written + result.toNat
        some { sub := rt.1, ts := rt.2,
               inflight := rest ++ ws.map Prod.fst,
               written := w2,
               subsRev := (ws.map fun w => (w.2, w.1.length, w2)) ++ st.subsRev }

/-- Run a list of transcript events from a state. -/
def TranscriptRun.run (st : TranscriptRun) : List TranscriptEv →
    Option TranscriptRun
  | [] => some st
  | e :: es =>
    match st.step e with
    | none => none
    | some st2 => st2.run es

/-- The state right after `Transcript::new`: offset 0, empty accumulation
buffer, not flushing, empty backlog, nothing in flight, nothing written. -/
def TranscriptRun.init (fd : Int) (nid : Nat) : TranscriptRun :=
  { sub := ⟨nid, []⟩,
    ts := { fd := fd, offset := 0, current_buf := [], flushing := false,
            bufs_to_be_flushed := [] },
    inflight := [], written := 0, subsRev := [] }

/-- The submission history (most recent first) has strictly decreasing
offsets, i.e. chronologically the writes were submitted at strictly
increasing offsets. -/
def offsDesc : List (Nat × Nat × Nat) → Bool
  | [] => true
  | [_] => true
  | a :: b :: rest => decide (b.1 < a.1) && offsDesc (b :: rest)

/-- The most recent submission relates to the current offset: while a write
is in flight it was submitted at the current offset, otherwise it lies
strictly below the current offset; and a write can only be in flight once
something was submitted. -/
def headOk (st : TranscriptRun) : Prop :=
  match st.subsRev with
  | [] => st.ts.flushing = false
  | e :: _ => if st.ts.flushing then e.1 = st.ts.offset else e.1 < st.ts.offset

/-- The transcript log buffer invariant: the flushing flag tracks exactly
whether a write is in flight; at most one write is in flight; the backlog is
non-empty only while flushing; the file offset equals the cumulative bytes
reported written; submissions were made at strictly increasing offsets; each
submission's offset equals the cumulative bytes written at submission time;
and the most recent submission relates to the current offset as `headOk`. -/
def TInv (st : TranscriptRun) : Prop :=
  st.ts.flushing = !st.inflight.isEmpty
  ∧ st.inflight.length ≤ 1
  ∧ (st.ts.bufs_to_be_flushed ≠ [] → st.ts.flushing = true)
  ∧ st.ts.offset = st.written
  ∧ offsDesc st.subsRev = true
  ∧ (∀ e ∈ st.subsRev, e.2.2 = e.1)
  ∧ headOk st

/-- A direction state in which the teardown trigger is legal (an other state
makes `start_uart_teardown` panic). -/
def canTeardown : State → Bool
  | State.Processing => true
  | State.Reading _ => true
  | State.Writing _ => true
  | _ => false

/-- A direction state that has been driven toward its torn-down side:
either a cancel is outstanding or the direction is fully torn down. -/
def tearingOrTorn : State → Bool
  | State.TearDown _ => true
  | State.TornDown => true
  | _ => false

theorem vecResize_length (l : List Nat) (n : Nat) :
    (vecResize l n).length = n := by
  simp [vecResize]
  omega

/-- C10: for every read completion dispatched by the Reactor, a negative
result hands the continuation an empty buffer (the prior contents are
cleared), while a non-negative result hands back a buffer of length exactly
the result. -/
theorem dispatch_read_negative_clears (result : Int) (buf : List Nat) :
    (result < 0 → dispatch_read_buf result buf = [])
    ∧ (0 ≤ result → (dispatch_read_buf result buf).length = result.toNat) := by
  constructor
  · intro h
    simp [dispatch_read_buf, not_le.mpr h]
  · intro h
    simp [dispatch_read_buf, h, vecResize_length]

/-- Witness for C10 at concrete inputs: result -3 clears a non-empty buffer,
result 2 yields a buffer of length 2. -/
theorem dispatch_read_negative_clears_witness :
    dispatch_read_buf (-3) [7, 8] = []
    ∧ (dispatch_read_buf 2 [7, 8, 9]).length = (2 : Int).toNat :=
  ⟨(dispatch_read_negative_clears (-3) [7, 8]).1 (by decide),
   (dispatch_read_negative_clears 2 [7, 8, 9]).2 (by decide)⟩

/-- C1 counterexample: a zero-byte console (tty) read completion does not
enter teardown.  With both directions in `Reading`, `tty_read_done` with
result 0 and the (truncated, hence empty) buffer submits a write of the
empty buffer to the UART descriptor (42) and moves the direction to
`Writing` — and the earlier variant `tty_read_done_v1` panics instead.
Neither behaviour is the teardown the claim requires. -/
theorem tty_zero_read_not_teardown_cex :
    tty_read_done ⟨3, []⟩
      { tty := 0, uart := 42, uart_state := State.Reading 2,
        tty_state := State.Reading 1, transcript := none } 0 []
      = some (⟨4, [Action.Write 42 [] 0 3]⟩,
        { tty := 0, uart := 42, uart_state := State.Reading 2,
          tty_state := State.Writing 3, transcript := none })
    ∧ tty_read_done_v1 ⟨3, []⟩
      { tty := 0, uart := 42, uart_state := State.Reading 2,
        tty_state := State.Reading 1, transcript := none } 0 [] = none := by
  decide

/-- C1 (amended): a zero-byte UART read completion enters teardown, driving
both directions to `TearDown`/`TornDown`.  A zero-byte console (tty) read
completion does not enter teardown: in src/uart_tty.rs the empty buffer
(which cannot contain the sentinel) is submitted as a write to the UART and
the direction moves to `Writing`, while in src/uart_tty_sm.rs the handler
panics. -/
theorem zero_byte_completions (r : Submitter) (sm : UartTtySM)
    (id : Nat) (buf : List Nat)
    (htr : sm.transcript = none) :
    (sm.uart_state = State.Reading id → canTeardown sm.tty_state = true →
      ∃ r2 sm2, uart_read_done r sm 0 buf = some (r2, sm2)
        ∧ tearingOrTorn sm2.tty_state = true
        ∧ tearingOrTorn sm2.uart_state = true)
    ∧ (sm.tty_state = State.Reading id →
      tty_read_done r sm 0 []
        = some ((r.submit_write sm.uart [] 0).2,
                { sm with tty_state := State.Writing r.nextId })
      ∧ tty_read_done_v1 r sm 0 [] = none) := by
  obtain ⟨tty, uart, us, ts, tr⟩ := sm
  simp only at htr
  subst htr
  refine ⟨?_, ?_⟩
  · intro hu ht
    simp only at hu ht
    subst hu
    cases ts with
    | Processing =>
      simp [uart_read_done, start_uart_teardown, teardown_one_dir,
        Submitter.submit_cancel, tearingOrTorn]
      exact ⟨_, _, ⟨rfl, rfl⟩, rfl, rfl⟩
    | Reading i =>
      simp [uart_read_done, start_uart_teardown, teardown_one_dir,
        Submitter.submit_cancel, tearingOrTorn]
      exact ⟨_, _, ⟨rfl, rfl⟩, rfl, rfl⟩
    | Writing i =>
      simp [uart_read_done, start_uart_teardown, teardown_one_dir,
        Submitter.submit_cancel, tearingOrTorn]
      exact ⟨_, _, ⟨rfl, rfl⟩, rfl, rfl⟩
    | TearDown i => simp [canTeardown] at ht
    | TornDown => simp [canTeardown] at ht
  · intro ht
    simp only at ht
    subst ht
    constructor
    · simp [tty_read_done, Submitter.submit_write, List.contains]
    · simp [tty_read_done_v1]

theorem newWrites_self (r : Submitter) : newWrites r r = [] := by
  simp [newWrites]

theorem newWrites_cancel (r : Submitter) (t : Nat) :
    newWrites r (r.submit_cancel t).2 = [] := by
  simp [newWrites, Submitter.submit_cancel, List.drop_left]

theorem newWrites_write (r : Submitter) (fd : Int) (buf : List Nat)
    (off : Nat) :
    newWrites r (r.submit_write fd buf off).2 = [(buf, off)] := by
  simp [newWrites, Submitter.submit_write, List.drop_left]

theorem newWrites_read (r : Submitter) (fd : Int) (buf : List Nat) :
    newWrites r (r.submit_read fd buf).2 = [] := by
  simp [newWrites, Submitter.submit_read, List.drop_left]

/-- Witness for C1 at a concrete input: a zero-byte UART read with the
console direction in `Reading` cancels it and tears the UART direction
down. -/
theorem zero_byte_completions_witness :
    ∃ r2 sm2, uart_read_done ⟨3, []⟩
      { tty := 0, uart := 42, uart_state := State.Reading 2,
        tty_state := State.Reading 1, transcript := none } 0 [5]
      = some (r2, sm2)
      ∧ tearingOrTorn sm2.tty_state = true
      ∧ tearingOrTorn sm2.uart_state = true :=
  (zero_byte_completions ⟨3, []⟩
    { tty := 0, uart := 42, uart_state := State.Reading 2,
      tty_state := State.Reading 1, transcript := none } 2 [5] rfl).1 rfl rfl

/-- C2: a completed console read whose buffer contains the byte 0x0f
anywhere submits no write at all (in particular none to the UART endpoint)
and drives both directions directly toward teardown. -/
theorem quit_sentinel_not_forwarded (r : Submitter) (sm : UartTtySM)
    (id : Nat) (result : Int) (buf : List Nat)
    (hst : sm.tty_state = State.Reading id)
    (hres : 0 ≤ result)
    (hbuf : buf.contains 0x0f = true)
    (htr : sm.transcript = none)
    (hu : canTeardown sm.uart_state = true) :
    ∃ r2 sm2, tty_read_done r sm result buf = some (r2, sm2)
      ∧ newWrites r r2 = []
      ∧ tearingOrTorn sm2.tty_state = true
      ∧ tearingOrTorn sm2.uart_state = true := by
  have hneg : ¬ (result < 0) := not_lt.mpr hres
  have hmem : (0x0f : Nat) ∈ buf := by simpa using hbuf
  obtain ⟨tty, uart, us, ts, tr⟩ := sm
  simp only at hst htr hu
  subst hst; subst htr
  cases us with
  | Processing =>
    exact ⟨r,
      { tty := tty, uart := uart, uart_state := State.TornDown,
        tty_state := State.TornDown, transcript := none },
      by simp [tty_read_done, hneg, hmem, start_uart_teardown,
        teardown_one_dir],
      newWrites_self r, rfl, rfl⟩
  | Reading i =>
    exact ⟨(r.submit_cancel i).2,
      { tty := tty, uart := uart,
        uart_state := State.TearDown (r.submit_cancel i).1,
        tty_state := State.TornDown, transcript := none },
      by simp [tty_read_done, hneg, hmem, start_uart_teardown,
        teardown_one_dir],
      newWrites_cancel r i, rfl, rfl⟩
  | Writing i =>
    exact ⟨(r.submit_cancel i).2,
      { tty := tty, uart := uart,
        uart_state := State.TearDown (r.submit_cancel i).1,
        tty_state := State.TornDown, transcript := none },
      by simp [tty_read_done, hneg, hmem, start_uart_teardown,
        teardown_one_dir],
      newWrites_cancel r i, rfl, rfl⟩
  | TearDown i => simp [canTeardown] at hu
  | TornDown => simp [canTeardown] at hu

/-- Witness for C2 at a concrete input: a console read of the single byte
0x0f cancels the outstanding UART read and submits no write. -/
theorem quit_sentinel_not_forwarded_witness :
    ∃ r2 sm2, tty_read_done ⟨3, []⟩
      { tty := 0, uart := 42, uart_state := State.Reading 2,
        tty_state := State.Reading 1, transcript := none } 1 [0x0f]
      = some (r2, sm2)
      ∧ newWrites ⟨3, []⟩ r2 = []
      ∧ tearingOrTorn sm2.tty_state = true
      ∧ tearingOrTorn sm2.uart_state = true :=
  quit_sentinel_not_forwarded ⟨3, []⟩
    { tty := 0, uart := 42, uart_state := State.Reading 2,
      tty_state := State.Reading 1, transcript := none } 1 1 [0x0f]
    rfl (by decide) (by decide) rfl rfl

/-- C3: a write completion with a positive byte count smaller than the
buffer length resubmits a write of exactly the unwritten suffix to the same
destination (the UART for the console→UART direction, the console for the
UART→console direction), the direction stays in `Writing`, and the bytes
reported written concatenated with the resubmitted remainder reconstitute
the original buffer — no byte duplicated or dropped. -/
theorem short_write_resubmits_remainder (r : Submitter) (sm : UartTtySM)
    (id : Nat) (result : Int) (buf : List Nat)
    (h0 : 0 < result) (hlt : result.toNat < buf.length) :
    (sm.tty_state = State.Writing id →
      uart_write_done r sm result buf
        = some ((r.submit_write sm.uart (buf.drop result.toNat) 0).2,
                { sm with tty_state := State.Writing r.nextId })
      ∧ buf.take result.toNat ++ buf.drop result.toNat = buf)
    ∧ (sm.uart_state = State.Writing id →
      tty_write_done r sm result buf
        = some ((r.submit_write sm.tty (buf.drop result.toNat) 0).2,
                { sm with uart_state := State.Writing r.nextId })
      ∧ buf.take result.toNat ++ buf.drop result.toNat = buf) := by
  have hne : ¬ (result = 0) := by omega
  have hneg : ¬ (result < 0) := by omega
  obtain ⟨tty, uart, us, ts, tr⟩ := sm
  constructor
  · intro ht
    simp only at ht
    subst ht
    constructor
    · simp [uart_write_done, hne, hneg, hlt, Submitter.submit_write]
    · exact List.take_append_drop _ buf
  · intro hu
    simp only at hu
    subst hu
    constructor
    · simp [tty_write_done, hne, hneg, hlt, Submitter.submit_write]
    · exact List.take_append_drop _ buf

/-- Witness for C3 at a concrete input: a write of 5 bytes reported as 2
written resubmits exactly the last 3 bytes to the same descriptor. -/
theorem short_write_resubmits_remainder_witness :
    uart_write_done ⟨7, []⟩
      { tty := 0, uart := 42, uart_state := State.Reading 2,
        tty_state := State.Writing 4, transcript := none } 2 [1, 2, 3, 4, 5]
      = some ((Submitter.submit_write ⟨7, []⟩ 42 [3, 4, 5] 0).2,
        { tty := 0, uart := 42, uart_state := State.Reading 2,
          tty_state := State.Writing 7, transcript := none })
    ∧ [1, 2, 3, 4, 5].take (2 : Int).toNat
        ++ [1, 2, 3, 4, 5].drop (2 : Int).toNat = [1, 2, 3, 4, 5] :=
  (short_write_resubmits_remainder ⟨7, []⟩
    { tty := 0, uart := 42, uart_state := State.Reading 2,
      tty_state := State.Writing 4, transcript := none } 4 2 [1, 2, 3, 4, 5]
    (by decide) (by decide)).1 rfl

/-- C7 counterexample: a console-read completion delivered while the
console→UART direction is already `TornDown` is not silently discarded —
`tty_read_done` hits the invalid-state arm and panics (`none`), for this
concrete state and completion. -/
theorem completion_in_torndown_panics_cex :
    tty_read_done ⟨1, []⟩
      { tty := 0, uart := 42, uart_state := State.Processing,
        tty_state := State.TornDown, transcript := none } 2 [1, 2] = none := by
  decide

/-- C7 (amended): a completion arriving for a direction already in
`TearDown` is silently discarded by all four handlers (no transition, no
submission, no panic), and one arriving in `TornDown` is silently discarded
by `uart_write_done`, `uart_read_done` and `tty_write_done`; but
`tty_read_done` in `TornDown` panics instead of discarding. -/
theorem completions_discarded_when_tearing (r : Submitter) (sm : UartTtySM)
    (id : Nat) (result : Int) (buf : List Nat) :
    (sm.tty_state = State.TearDown id →
      tty_read_done r sm result buf = some (r, sm)
      ∧ uart_write_done r sm result buf = some (r, sm))
    ∧ (sm.tty_state = State.TornDown →
      uart_write_done r sm result buf = some (r, sm)
      ∧ tty_read_done r sm result buf = none)
    ∧ (sm.uart_state = State.TearDown id →
      uart_read_done r sm result buf = some (r, sm)
      ∧ tty_write_done r sm result buf = some (r, sm))
    ∧ (sm.uart_state = State.TornDown →
      uart_read_done r sm result buf = some (r, sm)
      ∧ tty_write_done r sm result buf = some (r, sm)) := by
  refine ⟨fun h => ?_, fun h => ?_, fun h => ?_, fun h => ?_⟩
  · exact ⟨by simp [tty_read_done, h], by simp [uart_write_done, h]⟩
  · exact ⟨by simp [uart_write_done, h], by simp [tty_read_done, h]⟩
  · exact ⟨by simp [uart_read_done, h], by simp [tty_write_done, h]⟩
  · exact ⟨by simp [uart_read_done, h], by simp [tty_write_done, h]⟩

/-- Witness for C7 at a concrete input: with the console direction in
`TearDown 9`, both handlers of that direction return the state and the
submitter unchanged. -/
theorem completions_discarded_when_tearing_witness :
    tty_read_done ⟨1, []⟩
      { tty := 0, uart := 42, uart_state := State.Processing,
        tty_state := State.TearDown 9, transcript := none } 2 [1]
      = some (⟨1, []⟩,
        { tty := 0, uart := 42, uart_state := State.Processing,
          tty_state := State.TearDown 9, transcript := none })
    ∧ uart_write_done ⟨1, []⟩
      { tty := 0, uart := 42, uart_state := State.Processing,
        tty_state := State.TearDown 9, transcript := none } 2 [1]
      = some (⟨1, []⟩,
        { tty := 0, uart := 42, uart_state := State.Processing,
          tty_state := State.TearDown 9, transcript := none }) :=
  (completions_discarded_when_tearing ⟨1, []⟩
    { tty := 0, uart := 42, uart_state := State.Processing,
      tty_state := State.TearDown 9, transcript := none } 9 2 [1]).1 rfl

/-- C9 counterexample: the log buffer's teardown is started while a
direction is still `TearingDown` with an outstanding cancel.  Triggering
teardown with the console direction in `Reading 1` and a transcript holding
3 unflushed bytes submits the cancel (id 3) and, in the same call, the
transcript flush write (id 4, to the transcript descriptor 7) — although the
resulting console direction state is `TearDown 3`, not `TornDown`. -/
theorem transcript_teardown_while_tearing_cex :
    start_uart_teardown ⟨3, []⟩
      { tty := 0, uart := 42, uart_state := State.Processing,
        tty_state := State.Reading 1,
        transcript := some ⟨7, 0, [1, 2, 3], false, []⟩ }
      = some (⟨5, [Action.Cancel 1 3, Action.Write 7 [1, 2, 3] 0 4]⟩,
        { tty := 0, uart := 42, uart_state := State.TornDown,
          tty_state := State.TearDown 3,
          transcript := some ⟨7, 0, [], true, []⟩ }) := by
  decide

/-- C9 (amended): the log buffer's teardown is initiated unconditionally at
the end of `start_uart_teardown` whenever a transcript is present — in
particular already while a direction is still `TearingDown` with its cancel
outstanding — and the cancel-completion continuation (`handle_other_ev`)
performs no submissions and no transitions, so nothing further is initiated
when the directions later become `TornDown`. -/
theorem transcript_teardown_started_in_teardown (r : Submitter)
    (sm : UartTtySM) (t : Transcript) (id : Nat) (result : Int) (ud : Nat)
    (htr : sm.transcript = some t)
    (hf : t.flushing = false) (hb : t.bufs_to_be_flushed = [])
    (hc : t.current_buf ≠ [])
    (ht : sm.tty_state = State.Reading id)
    (hu : canTeardown sm.uart_state = true) :
    (∃ r2 sm2, start_uart_teardown r sm = some (r2, sm2)
      ∧ sm2.tty_state = State.TearDown r.nextId
      ∧ sm2.transcript = some { t with flushing := true, current_buf := [] }
      ∧ (t.current_buf, t.offset) ∈ newWrites r r2)
    ∧ handle_other_ev r sm result ud = (r, sm) := by
  obtain ⟨tty, uart, us, ts, tr⟩ := sm
  simp only at htr ht hu
  subst htr; subst ht
  refine ⟨?_, rfl⟩
  cases us with
  | Processing =>
    exact ⟨((r.submit_cancel id).2.submit_write t.fd t.current_buf t.offset).2,
      ⟨tty, uart, State.TornDown, State.TearDown (r.submit_cancel id).1,
        some ⟨t.fd, t.offset, [], true, []⟩⟩,
      by simp [start_uart_teardown, teardown_one_dir, hf, hb, hc,
        start_transcript_teardown, write_buf],
      rfl, by simp [hb],
      by simp [newWrites, Submitter.submit_cancel, Submitter.submit_write,
        List.drop_left]⟩
  | Reading j =>
    exact ⟨(((r.submit_cancel id).2.submit_cancel j).2.submit_write
        t.fd t.current_buf t.offset).2,
      ⟨tty, uart, State.TearDown ((r.submit_cancel id).2.submit_cancel j).1,
        State.TearDown (r.submit_cancel id).1,
        some ⟨t.fd, t.offset, [], true, []⟩⟩,
      by simp [start_uart_teardown, teardown_one_dir, hf, hb, hc,
        start_transcript_teardown, write_buf],
      rfl, by simp [hb],
      by simp [newWrites, Submitter.submit_cancel, Submitter.submit_write,
        List.drop_left]⟩
  | Writing j =>
    exact ⟨(((r.submit_cancel id).2.submit_cancel j).2.submit_write
        t.fd t.current_buf t.offset).2,
      ⟨tty, uart, State.TearDown ((r.submit_cancel id).2.submit_cancel j).1,
        State.TearDown (r.submit_cancel id).1,
        some ⟨t.fd, t.offset, [], true, []⟩⟩,
      by simp [start_uart_teardown, teardown_one_dir, hf, hb, hc,
        start_transcript_teardown, write_buf],
      rfl, by simp [hb],
      by simp [newWrites, Submitter.submit_cancel, Submitter.submit_write,
        List.drop_left]⟩
  | TearDown j => simp [canTeardown] at hu
  | TornDown => simp [canTeardown] at hu

/-- Witness for C9 at a concrete input: the configuration of the
counterexample, through the amended theorem. -/
theorem transcript_teardown_started_in_teardown_witness :
    (∃ r2 sm2, start_uart_teardown ⟨3, []⟩
      { tty := 0, uart := 42, uart_state := State.Processing,
        tty_state := State.Reading 1,
        transcript := some ⟨7, 0, [1, 2, 3], false, []⟩ } = some (r2, sm2)
      ∧ sm2.tty_state = State.TearDown 3
      ∧ sm2.transcript = some ⟨7, 0, [], true, []⟩
      ∧ ([1, 2, 3], 0) ∈ newWrites ⟨3, []⟩ r2)
    ∧ handle_other_ev ⟨3, []⟩
      { tty := 0, uart := 42, uart_state := State.Processing,
        tty_state := State.Reading 1,
        transcript := some ⟨7, 0, [1, 2, 3], false, []⟩ } 0 9
      = (⟨3, []⟩,
        { tty := 0, uart := 42, uart_state := State.Processing,
          tty_state := State.Reading 1,
          transcript := some ⟨7, 0, [1, 2, 3], false, []⟩ }) :=
  transcript_teardown_started_in_teardown ⟨3, []⟩
    { tty := 0, uart := 42, uart_state := State.Processing,
      tty_state := State.Reading 1,
      transcript := some ⟨7, 0, [1, 2, 3], false, []⟩ }
    ⟨7, 0, [1, 2, 3], false, []⟩ 1 0 9 rfl rfl rfl (by decide) rfl rfl

/-- C4 counterexample: with `current` holding 4090 bytes, an append of 10
bytes submits exactly one flush write of 4090 bytes (the old `current`,
unmodified) at offset 0 and leaves `current` holding all 10 incoming bytes —
not a flush of 4096 bytes with 4 bytes remaining as the claim states. -/
theorem transcript_append_4090_cex :
    log_to_transcript ⟨1, []⟩ ⟨7, 0, List.replicate 4090 7, false, []⟩
        (List.replicate 10 9)
      = (⟨2, [Action.Write 7 (List.replicate 4090 7) 0 1]⟩,
         ⟨7, 0, List.replicate 10 9, true, []⟩)
    ∧ (log_to_transcript ⟨1, []⟩ ⟨7, 0, List.replicate 4090 7, false, []⟩
        (List.replicate 10 9)).2.current_buf.length = 10
    ∧ ¬ ((4090 : Nat) = 4096 ∧ (10 : Nat) = 4) := by
  refine ⟨?_, ?_, by decide⟩
  · simp [-List.reduceReplicate, log_to_transcript, TRANSCRIPT_BUFFER_SIZE,
      write_buf, Submitter.submit_write]
  · simp [-List.reduceReplicate, log_to_transcript, TRANSCRIPT_BUFFER_SIZE,
      write_buf, Submitter.submit_write]

/-- C4 (amended): an append that would leave `current` strictly below
capacity only extends `current`; an append that exactly fills capacity hands
off `current ++ buf` (submitting it when idle, queueing it when flushing);
and an append that would exceed capacity hands off the old `current`
unmodified — whatever its fill, e.g. 4090 bytes — while the entire incoming
buffer becomes the new `current`: the incoming bytes are never split. -/
theorem transcript_append_characterization (r : Submitter) (t : Transcript)
    (buf : List Nat) :
    (buf.length + t.current_buf.length < TRANSCRIPT_BUFFER_SIZE →
      log_to_transcript r t buf
        = (r, { t with current_buf := t.current_buf ++ buf }))
    ∧ (buf.length + t.current_buf.length = TRANSCRIPT_BUFFER_SIZE →
       t.flushing = false →
      log_to_transcript r t buf
        = ((r.submit_write t.fd (t.current_buf ++ buf) t.offset).2,
           { t with current_buf := [], flushing := true }))
    ∧ (TRANSCRIPT_BUFFER_SIZE < buf.length + t.current_buf.length →
       t.flushing = false →
      log_to_transcript r t buf
        = ((r.submit_write t.fd t.current_buf t.offset).2,
           { t with current_buf := buf, flushing := true }))
    ∧ (buf.length + t.current_buf.length = TRANSCRIPT_BUFFER_SIZE →
       t.flushing = true →
      log_to_transcript r t buf
        = (r, { t with current_buf := [],
                       bufs_to_be_flushed :=
                         t.bufs_to_be_flushed ++ [t.current_buf ++ buf] }))
    ∧ (TRANSCRIPT_BUFFER_SIZE < buf.length + t.current_buf.length →
       t.flushing = true →
      log_to_transcript r t buf
        = (r, { t with current_buf := buf,
                       bufs_to_be_flushed :=
                         t.bufs_to_be_flushed ++ [t.current_buf] })) := by
  obtain ⟨fd, off, cur, fl, backlog⟩ := t
  refine ⟨fun h => ?_, fun h hf => ?_, fun h hf => ?_, fun h hf => ?_,
    fun h hf => ?_⟩
  · simp only at h
    simp [log_to_transcript, h]
  · simp only at h hf
    subst hf
    simp [log_to_transcript, h, write_buf, Submitter.submit_write]
  · simp only at h hf
    subst hf
    have h1 : ¬ (buf.length + cur.length < TRANSCRIPT_BUFFER_SIZE) := by omega
    have h2 : ¬ (buf.length + cur.length = TRANSCRIPT_BUFFER_SIZE) := by omega
    simp [log_to_transcript, h1, h2, write_buf, Submitter.submit_write]
  · simp only at h hf
    subst hf
    simp [log_to_transcript, h, write_buf, Submitter.submit_write]
  · simp only at h hf
    subst hf
    have h1 : ¬ (buf.length + cur.length < TRANSCRIPT_BUFFER_SIZE) := by omega
    have h2 : ¬ (buf.length + cur.length = TRANSCRIPT_BUFFER_SIZE) := by omega
    simp [log_to_transcript, h1, h2, write_buf, Submitter.submit_write]

/-- Witness for C4 at a concrete input: 4095 buffered bytes plus 2 incoming
bytes exceed the 4096-byte capacity, so the 4095 old bytes are flushed and
`current` becomes the 2 incoming bytes. -/
theorem transcript_append_characterization_witness :
    log_to_transcript ⟨1, []⟩ ⟨7, 0, List.replicate 4095 1, false, []⟩ [2, 3]
      = ((Submitter.submit_write ⟨1, []⟩ 7 (List.replicate 4095 1) 0).2,
         ⟨7, 0, [2, 3], true, []⟩) :=
  (transcript_append_characterization ⟨1, []⟩
    ⟨7, 0, List.replicate 4095 1, false, []⟩ [2, 3]).2.2.1
    (by simp [-List.reduceReplicate, TRANSCRIPT_BUFFER_SIZE]) rfl

/-- C6 counterexample: with the submission ring full (capacity 0), a read
submission is not retried internally — `Reactor::submit` returns the
`io-uring push error` to its caller, and the submission loop used by
`Reactor::run` and `Reactor::with_submitter` propagates it. -/
theorem ring_full_error_surfaces_cex :
    Reactor.submit ⟨[], ⟨0, []⟩, 1⟩ (Action.Read 0 [0] 1)
      = some (Except.error "io-uring push error")
    ∧ Reactor.submitAll ⟨[], ⟨0, []⟩, 1⟩ [Action.Read 0 [0] 1]
      = some (Except.error "io-uring push error") :=
  ⟨rfl, rfl⟩

/-- C6 (amended): when the kernel submission ring is full, every read, write
or cancel submission fails with the `io-uring push error`, which is returned
to the caller of `Reactor::submit` and propagated unchanged out of the
submission loop of `Reactor::run`/`Reactor::with_submitter`; no internal
flush-and-retry takes place (only EINTR during the blocking wait is ever
retried). -/
theorem ring_full_error_surfaces (rc : Reactor) (a : Action)
    (rest : List Action)
    (hfull : ¬ rc.ring.entries.length < rc.ring.cap) :
    Reactor.submit rc a = some (Except.error "io-uring push error")
    ∧ Reactor.submitAll rc (a :: rest)
      = some (Except.error "io-uring push error") := by
  have hsub : Reactor.submit rc a
      = some (Except.error "io-uring push error") := by
    cases a with
    | Read fd buf ud =>
      simp [Reactor.submit, sq_submit_read, Sq.push, hfull]
    | Write fd buf off ud =>
      simp [Reactor.submit, sq_submit_write, Sq.push, hfull]
    | Cancel target ud =>
      simp [Reactor.submit, sq_submit_cancel, Sq.push, hfull]
  exact ⟨hsub, by simp [Reactor.submitAll, hsub]⟩

/-- Witness for C6 at a concrete input: a full ring of capacity 1 rejects a
cancel submission with the push error, through both entry points. -/
theorem ring_full_error_surfaces_witness :
    Reactor.submit ⟨[], ⟨1, [SqEntry.Cancel 1 2]⟩, 3⟩ (Action.Cancel 1 3)
      = some (Except.error "io-uring push error")
    ∧ Reactor.submitAll ⟨[], ⟨1, [SqEntry.Cancel 1 2]⟩, 3⟩
      [Action.Cancel 1 3, Action.Read 0 [0] 4]
      = some (Except.error "io-uring push error") :=
  ring_full_error_surfaces ⟨[], ⟨1, [SqEntry.Cancel 1 2]⟩, 3⟩
    (Action.Cancel 1 3) [Action.Read 0 [0] 4] (by decide)

theorem lookup_isSome_of_mem_keys (l : List (Nat × OpInProgress)) (k : Nat)
    (h : k ∈ l.map Prod.fst) : (l.lookup k).isSome = true := by
  induction l with
  | nil => simp at h
  | cons p rest ih =>
    simp only [List.map_cons, List.mem_cons] at h
    by_cases hk : k = p.1
    · simp [List.lookup, hk]
    · rcases h with h | h
      · exact absurd h hk
      · simp only [List.lookup, beq_false_of_ne hk]
        exact ih h

theorem nodup_keys_append_fresh (l : List (Nat × OpInProgress)) (k : Nat)
    (v : OpInProgress) (hnd : (l.map Prod.fst).Nodup)
    (hfresh : (l.lookup k).isSome = false) :
    ((l ++ [(k, v)]).map Prod.fst).Nodup := by
  have hk : k ∉ l.map Prod.fst := by
    intro hmem
    have h2 := lookup_isSome_of_mem_keys l k hmem
    rw [hfresh] at h2
    simp at h2
  simp only [List.map_append, List.map_cons, List.map_nil]
  exact List.Nodup.append hnd (List.nodup_singleton k)
    (List.disjoint_singleton.mpr hk)

/-- C8: identifier issuance and uniqueness.  Each `submit_read`,
`submit_write` and `submit_cancel` returns the submitter's current next_id
and bumps it; under the invariant that all previously recorded actions carry
identifiers below next_id, the returned identifier is strictly greater than
every previously issued one and the invariant is preserved.  On the Reactor
side, registering an identifier already present in the in-progress map
panics (aborts) rather than replacing the entry, and a successful
registration keeps the map's keys duplicate-free. -/
theorem op_ids_fresh_and_unique (s : Submitter) (fd : Int) (buf : List Nat)
    (off : Nat) (tgt : Nat) (rc : Reactor) (a : Action) (rc2 : Reactor)
    (hids : ∀ x ∈ s.actions, x.userData < s.nextId) :
    ((s.submit_read fd buf).1 = s.nextId
      ∧ (s.submit_read fd buf).2.nextId = s.nextId + 1
      ∧ (s.submit_write fd buf off).1 = s.nextId
      ∧ (s.submit_write fd buf off).2.nextId = s.nextId + 1
      ∧ (s.submit_cancel tgt).1 = s.nextId
      ∧ (s.submit_cancel tgt).2.nextId = s.nextId + 1)
    ∧ (∀ x ∈ s.actions, x.userData < (s.submit_read fd buf).1)
    ∧ ((∀ x ∈ (s.submit_read fd buf).2.actions,
          x.userData < (s.submit_read fd buf).2.nextId)
      ∧ (∀ x ∈ (s.submit_write fd buf off).2.actions,
          x.userData < (s.submit_write fd buf off).2.nextId)
      ∧ (∀ x ∈ (s.submit_cancel tgt).2.actions,
          x.userData < (s.submit_cancel tgt).2.nextId))
    ∧ (rc.ring.entries.length < rc.ring.cap →
        (rc.in_progress.lookup a.userData).isSome = true →
        Reactor.submit rc a = none)
    ∧ (Reactor.submit rc a = some (Except.ok rc2) →
        (rc.in_progress.map Prod.fst).Nodup →
        (rc2.in_progress.map Prod.fst).Nodup) := by
  refine ⟨⟨rfl, rfl, rfl, rfl, rfl, rfl⟩, hids, ⟨?_, ?_, ?_⟩, ?_, ?_⟩
  · intro x hx
    simp [Submitter.submit_read] at hx
    rcases hx with hx | hx
    · exact Nat.lt_succ_of_lt (hids x hx)
    · subst hx
      exact Nat.lt_succ_self _
  · intro x hx
    simp [Submitter.submit_write] at hx
    rcases hx with hx | hx
    · exact Nat.lt_succ_of_lt (hids x hx)
    · subst hx
      exact Nat.lt_succ_self _
  · intro x hx
    simp [Submitter.submit_cancel] at hx
    rcases hx with hx | hx
    · exact Nat.lt_succ_of_lt (hids x hx)
    · subst hx
      exact Nat.lt_succ_self _
  · intro hlt hdup
    cases a with
    | Read f b ud =>
      simp only [Action.userData] at hdup
      simp only [Reactor.submit, sq_submit_read, Sq.push, hlt, if_true, hdup,
        ite_true]
    | Write f b o ud =>
      simp only [Action.userData] at hdup
      simp only [Reactor.submit, sq_submit_write, Sq.push, hlt, if_true, hdup,
        ite_true]
    | Cancel t ud =>
      simp only [Action.userData] at hdup
      simp only [Reactor.submit, sq_submit_cancel, Sq.push, hlt, if_true, hdup,
        ite_true]
  · intro hok hnd
    cases a with
    | Read f b ud =>
      by_cases hcap : rc.ring.entries.length < rc.ring.cap
      · by_cases hdup : (rc.in_progress.lookup ud).isSome = true
        · simp [Reactor.submit, sq_submit_read, Sq.push, hcap, hdup] at hok
        · have hdup2 : (rc.in_progress.lookup ud).isSome = false :=
            Bool.eq_false_iff.mpr hdup
          simp [Reactor.submit, sq_submit_read, Sq.push, hcap, hdup2] at hok
          rw [← hok]
          exact nodup_keys_append_fresh _ ud _ hnd hdup2
      · simp [Reactor.submit, sq_submit_read, Sq.push, hcap] at hok
    | Write f b o ud =>
      by_cases hcap : rc.ring.entries.length < rc.ring.cap
      · by_cases hdup : (rc.in_progress.lookup ud).isSome = true
        · simp [Reactor.submit, sq_submit_write, Sq.push, hcap, hdup] at hok
        · have hdup2 : (rc.in_progress.lookup ud).isSome = false :=
            Bool.eq_false_iff.mpr hdup
          simp [Reactor.submit, sq_submit_write, Sq.push, hcap, hdup2] at hok
          rw [← hok]
          exact nodup_keys_append_fresh _ ud _ hnd hdup2
      · simp [Reactor.submit, sq_submit_write, Sq.push, hcap] at hok
    | Cancel t ud =>
      by_cases hcap : rc.ring.entries.length < rc.ring.cap
      · by_cases hdup : (rc.in_progress.lookup ud).isSome = true
        · simp [Reactor.submit, sq_submit_cancel, Sq.push, hcap, hdup] at hok
        · have hdup2 : (rc.in_progress.lookup ud).isSome = false :=
            Bool.eq_false_iff.mpr hdup
          simp [Reactor.submit, sq_submit_cancel, Sq.push, hcap, hdup2] at hok
          rw [← hok]
          exact nodup_keys_append_fresh _ ud _ hnd hdup2
      · simp [Reactor.submit, sq_submit_cancel, Sq.push, hcap] at hok

/-- Witness for C8 at concrete inputs: a submitter holding one action with
id 1 and next_id 2 issues id 2 on the next read submission; a reactor whose
map already holds id 2 panics on re-registration of id 2. -/
theorem op_ids_fresh_and_unique_witness :
    ((Submitter.submit_read ⟨2, [Action.Cancel 0 1]⟩ 5 [0]).1 = 2
      ∧ (Submitter.submit_read ⟨2, [Action.Cancel 0 1]⟩ 5 [0]).2.nextId = 2 + 1
      ∧ (Submitter.submit_write ⟨2, [Action.Cancel 0 1]⟩ 5 [0] 0).1 = 2
      ∧ (Submitter.submit_write ⟨2, [Action.Cancel 0 1]⟩ 5 [0] 0).2.nextId
          = 2 + 1
      ∧ (Submitter.submit_cancel ⟨2, [Action.Cancel 0 1]⟩ 7).1 = 2
      ∧ (Submitter.submit_cancel ⟨2, [Action.Cancel 0 1]⟩ 7).2.nextId = 2 + 1)
    ∧ (∀ x ∈ [Action.Cancel 0 1],
        Action.userData x < (Submitter.submit_read ⟨2, [Action.Cancel 0 1]⟩ 5 [0]).1)
    ∧ Reactor.submit ⟨[(2, OpInProgress.OtherOp)], ⟨4, []⟩, 3⟩
        (Action.Cancel 9 2) = none := by
  have h := op_ids_fresh_and_unique ⟨2, [Action.Cancel 0 1]⟩ 5 [0] 0 7
    ⟨[(2, OpInProgress.OtherOp)], ⟨4, []⟩, 3⟩ (Action.Cancel 9 2)
    ⟨[], ⟨4, []⟩, 3⟩ (by decide)
  exact ⟨h.1, h.2.1, h.2.2.2.1 (by decide) (by decide)⟩

theorem offsDesc_cons (x : Nat × Nat × Nat) (l : List (Nat × Nat × Nat))
    (hl : offsDesc l = true)
    (hx : ∀ y ∈ l.head?, y.1 < x.1) : offsDesc (x :: l) = true := by
  cases l with
  | nil => rfl
  | cons y rest =>
    have hy : y.1 < x.1 := hx y rfl
    simp only [offsDesc, Bool.and_eq_true, decide_eq_true_eq]
    exact ⟨hy, hl⟩

theorem newWrites_write_buf (r : Submitter) (t : Transcript) (b : List Nat) :
    newWrites r (write_buf r t b).1 = [(b, t.offset)] :=
  newWrites_write r t.fd b t.offset

/-- Preservation of the transcript invariant by an `append` step
(`log_to_transcript`). -/
theorem TInv_append (st : TranscriptRun) (buf : List Nat)
    (st2 : TranscriptRun) (hinv : TInv st)
    (hstep : st.step (TranscriptEv.append buf) = some st2) : TInv st2 := by
  obtain ⟨sub, ⟨fd, off, cur, fl, backlog⟩, inflight, written, subsRev⟩ := st
  obtain ⟨h1, h2, h3, h4, h5, h6, h7⟩ := hinv
  simp only at h1 h3 h4 h7
  simp only [TranscriptRun.step] at hstep
  by_cases hsz : buf.length + cur.length < TRANSCRIPT_BUFFER_SIZE
  · have hlog : log_to_transcript sub ⟨fd, off, cur, fl, backlog⟩ buf
        = (sub, ⟨fd, off, cur ++ buf, fl, backlog⟩) := by
      simp [log_to_transcript, hsz]
    rw [hlog] at hstep
    simp only [newWrites_self, List.map_nil, List.append_nil, List.nil_append,
      Option.some.injEq] at hstep
    subst hstep
    exact ⟨h1, h2, h3, h4, h5, h6, h7⟩
  · by_cases hfl : fl = true
    · by_cases heq : buf.length + cur.length = TRANSCRIPT_BUFFER_SIZE
      · have hlog : log_to_transcript sub ⟨fd, off, cur, fl, backlog⟩ buf
            = (sub, ⟨fd, off, [], fl, backlog ++ [cur ++ buf]⟩) := by
          subst hfl
          simp [log_to_transcript, hsz, heq]
        rw [hlog] at hstep
        simp only [newWrites_self, List.map_nil, List.append_nil,
          List.nil_append, Option.some.injEq] at hstep
        subst hstep
        exact ⟨h1, h2, fun _ => hfl, h4, h5, h6, by
          simp only [headOk] at h7 ⊢
          exact h7⟩
      · have hlog : log_to_transcript sub ⟨fd, off, cur, fl, backlog⟩ buf
            = (sub, ⟨fd, off, buf, fl, backlog ++ [cur]⟩) := by
          subst hfl
          simp [log_to_transcript, hsz, heq]
        rw [hlog] at hstep
        simp only [newWrites_self, List.map_nil, List.append_nil,
          List.nil_append, Option.some.injEq] at hstep
        subst hstep
        exact ⟨h1, h2, fun _ => hfl, h4, h5, h6, by
          simp only [headOk] at h7 ⊢
          exact h7⟩
    · have hfl2 : fl = false := Bool.eq_false_iff.mpr hfl
      subst hfl2
      have hinfl : inflight = [] := by
        have := h1.symm
        simp only [Bool.not_eq_false'] at this
        exact List.isEmpty_iff.mp this
      have hback : backlog = [] := by
        by_cases hb : backlog = []
        · exact hb
        · exact absurd (h3 hb) (by simp)
      subst hinfl; subst hback
      by_cases heq : buf.length + cur.length = TRANSCRIPT_BUFFER_SIZE
      · have hlog : log_to_transcript sub ⟨fd, off, cur, false, []⟩ buf
            = ((sub.submit_write fd (cur ++ buf) off).2,
               ⟨fd, off, [], true, []⟩) := by
          simp [log_to_transcript, hsz, heq, write_buf]
        rw [hlog] at hstep
        have hnw : newWrites sub (sub.submit_write fd (cur ++ buf) off).2
            = [(cur ++ buf, off)] := newWrites_write sub fd (cur ++ buf) off
        rw [hnw] at hstep
        simp only [List.map_cons, List.map_nil, List.cons_append,
          List.nil_append, Option.some.injEq] at hstep
        subst hstep
        refine ⟨rfl, by simp, fun h => rfl, h4, ?_, ?_, ?_⟩
        · refine offsDesc_cons _ _ h5 ?_
          intro y hy
          simp only [headOk] at h7
          cases hsr : subsRev with
          | nil => rw [hsr] at hy; simp at hy
          | cons z tail =>
            rw [hsr] at hy h7
            simp only [List.head?] at hy
            rw [hsr] at h5
            simp only [Option.mem_def, Option.some.injEq] at hy
            subst hy
            simpa using h7
        · intro e he
          rcases List.mem_cons.mp he with he | he
          · subst he
            exact h4.symm
          · exact h6 e he
        · simp [headOk]
      · have hlog : log_to_transcript sub ⟨fd, off, cur, false, []⟩ buf
            = ((sub.submit_write fd cur off).2,
               ⟨fd, off, buf, true, []⟩) := by
          simp [log_to_transcript, hsz, heq, write_buf]
        rw [hlog] at hstep
        have hnw : newWrites sub (sub.submit_write fd cur off).2
            = [(cur, off)] := newWrites_write sub fd cur off
        rw [hnw] at hstep
        simp only [List.map_cons, List.map_nil, List.cons_append,
          List.nil_append, Option.some.injEq] at hstep
        subst hstep
        refine ⟨rfl, by simp, fun h => rfl, h4, ?_, ?_, ?_⟩
        · refine offsDesc_cons _ _ h5 ?_
          intro y hy
          simp only [headOk] at h7
          cases hsr : subsRev with
          | nil => rw [hsr] at hy; simp at hy
          | cons z tail =>
            rw [hsr] at hy h7
            simp only [List.head?] at hy
            simp only [Option.mem_def, Option.some.injEq] at hy
            subst hy
            simpa using h7
        · intro e he
          rcases List.mem_cons.mp he with he | he
          · subst he
            exact h4.symm
          · exact h6 e he
        · simp [headOk]

/-- Preservation of the transcript invariant by a `teardown` step
(`start_transcript_teardown`). -/
theorem TInv_teardown (st : TranscriptRun) (st2 : TranscriptRun)
    (hinv : TInv st)
    (hstep : st.step TranscriptEv.teardown = some st2) : TInv st2 := by
  obtain ⟨sub, ⟨fd, off, cur, fl, backlog⟩, inflight, written, subsRev⟩ := st
  obtain ⟨h1, h2, h3, h4, h5, h6, h7⟩ := hinv
  simp only at h1 h3 h4 h7
  simp only [TranscriptRun.step] at hstep
  by_cases hfl : fl = true
  · have htd : start_transcript_teardown sub ⟨fd, off, cur, fl, backlog⟩
        = some (sub, ⟨fd, off, cur, fl, backlog⟩) := by
      subst hfl
      simp [start_transcript_teardown]
    rw [htd] at hstep
    simp only [newWrites_self, List.map_nil, List.append_nil, List.nil_append,
      Option.some.injEq] at hstep
    subst hstep
    exact ⟨h1, h2, h3, h4, h5, h6, h7⟩
  · have hfl2 : fl = false := Bool.eq_false_iff.mpr hfl
    subst hfl2
    have hinfl : inflight = [] := by
      have := h1.symm
      simp only [Bool.not_eq_false'] at this
      exact List.isEmpty_iff.mp this
    have hback : backlog = [] := by
      by_cases hb : backlog = []
      · exact hb
      · exact absurd (h3 hb) (by simp)
    subst hinfl; subst hback
    by_cases hcur : cur = []
    · have htd : start_transcript_teardown sub ⟨fd, off, cur, false, []⟩
          = some (sub, ⟨fd, off, cur, false, []⟩) := by
        subst hcur
        simp [start_transcript_teardown]
      rw [htd] at hstep
      simp only [newWrites_self, List.map_nil, List.append_nil,
        List.nil_append, Option.some.injEq] at hstep
      subst hstep
      exact ⟨h1, h2, h3, h4, h5, h6, h7⟩
    · have htd : start_transcript_teardown sub ⟨fd, off, cur, false, []⟩
          = some ((sub.submit_write fd cur off).2,
                  ⟨fd, off, [], true, []⟩) := by
        simp [start_transcript_teardown, hcur, write_buf]
      rw [htd] at hstep
      simp only [newWrites_write, List.map_cons, List.map_nil,
        List.cons_append, List.nil_append, Option.some.injEq] at hstep
      subst hstep
      refine ⟨rfl, by simp, fun h => rfl, h4, ?_, ?_, ?_⟩
      · refine offsDesc_cons _ _ h5 ?_
        intro y hy
        simp only [headOk] at h7
        cases hsr : subsRev with
        | nil => rw [hsr] at hy; simp at hy
        | cons z tail =>
          rw [hsr] at hy h7
          simp only [List.head?] at hy
          simp only [Option.mem_def, Option.some.injEq] at hy
          subst hy
          simpa using h7
      · intro e he
        rcases List.mem_cons.mp he with he | he
        · subst he
          exact h4.symm
        · exact h6 e he
      · simp [headOk]

/-- Preservation of the transcript invariant by a write-completion step
(`handle_buffer_ev`). -/
theorem TInv_complete (st : TranscriptRun) (result : Int)
    (st2 : TranscriptRun) (hinv : TInv st)
    (hstep : st.step (TranscriptEv.complete result) = some st2) :
    TInv st2 := by
  obtain ⟨sub, ⟨fd, off, cur, fl, backlog⟩, inflight, written, subsRev⟩ := st
  obtain ⟨h1, h2, h3, h4, h5, h6, h7⟩ := hinv
  simp only at h1 h3 h4 h7
  simp only [TranscriptRun.step] at hstep
  cases inflight with
  | nil => simp at hstep
  | cons buf rest =>
    have hfl : fl = true := by simpa using h1
    subst hfl
    have hrest : rest = [] := by
      simp only [List.length_cons] at h2
      have : rest.length = 0 := by omega
      exact List.length_eq_zero.mp this
    subst hrest
    have hsr : ∃ z tail, subsRev = z :: tail ∧ z.1 = off := by
      simp only [headOk] at h7
      cases hs : subsRev with
      | nil => rw [hs] at h7; exact absurd h7 (by simp)
      | cons z tail =>
        rw [hs] at h7
        exact ⟨z, tail, rfl, by simpa using h7⟩
    by_cases hr0 : result = 0
    · simp [handle_buffer_ev, hr0] at hstep
    · by_cases hrneg : result < 0
      · simp [handle_buffer_ev, hr0, hrneg] at hstep
      · have hr1 : 1 ≤ result.toNat := by omega
        by_cases hlt : result.toNat < buf.length
        · have hh : handle_buffer_ev sub ⟨fd, off, cur, true, backlog⟩
              result buf
              = some ((sub.submit_write fd (buf.drop result.toNat)
                  (off + result.toNat)).2,
                ⟨fd, off + result.toNat, cur, true, backlog⟩) := by
            simp [handle_buffer_ev, hr0, hrneg, hlt, write_buf]
          simp only [hh, newWrites_write, List.map_cons, List.map_nil,
            List.cons_append, List.nil_append, Option.some.injEq] at hstep
          subst hstep
          refine ⟨rfl, by simp, fun h => rfl, by simp [h4], ?_, ?_, ?_⟩
          · refine offsDesc_cons _ _ h5 ?_
            intro y hy
            obtain ⟨z, tail, hz, hzoff⟩ := hsr
            rw [hz] at hy
            simp only [List.head?, Option.mem_def, Option.some.injEq] at hy
            subst hy
            simp only [hzoff]
            omega
          · intro e he
            rcases List.mem_cons.mp he with he | he
            · subst he
              simp [h4]
            · exact h6 e he
          · simp [headOk]
        · cases hbk : backlog with
          | cons next restb =>
            have hh : handle_buffer_ev sub ⟨fd, off, cur, true, backlog⟩
                result buf
                = some ((sub.submit_write fd next (off + result.toNat)).2,
                  ⟨fd, off + result.toNat, cur, true, restb⟩) := by
              subst hbk
              simp [handle_buffer_ev, hr0, hrneg, hlt, write_buf]
            simp only [hh, newWrites_write, List.map_cons, List.map_nil,
              List.cons_append, List.nil_append, Option.some.injEq] at hstep
            subst hstep
            refine ⟨rfl, by simp, fun h => rfl, by simp [h4], ?_, ?_, ?_⟩
            · refine offsDesc_cons _ _ h5 ?_
              intro y hy
              obtain ⟨z, tail, hz, hzoff⟩ := hsr
              rw [hz] at hy
              simp only [List.head?, Option.mem_def, Option.some.injEq] at hy
              subst hy
              simp only [hzoff]
              omega
            · intro e he
              rcases List.mem_cons.mp he with he | he
              · subst he
                simp [h4]
              · exact h6 e he
            · simp [headOk]
          | nil =>
            have hh : handle_buffer_ev sub ⟨fd, off, cur, true, backlog⟩
                result buf
                = some (sub, ⟨fd, off + result.toNat, cur, false, []⟩) := by
              subst hbk
              simp [handle_buffer_ev, hr0, hrneg, hlt]
            simp only [hh, newWrites_self, List.map_nil, List.append_nil,
              List.nil_append, Option.some.injEq] at hstep
            subst hstep
            refine ⟨rfl, by simp, fun h => absurd rfl h, by simp [h4],
              h5, h6, ?_⟩
            obtain ⟨z, tail, hz, hzoff⟩ := hsr
            simp [headOk, hz, hzoff]
            omega

/-- C5: across every append, teardown and write-completion step from the
freshly created transcript, the log buffer maintains: at most one write is
outstanding for the log file; the backlog is non-empty only while `flushing`
is true; the writes submitted to the file sit at strictly increasing
(hence non-overlapping) offsets; and each submitted write's offset equals
the cumulative bytes successfully written at the moment of submission
(short writes resubmit the remainder at the advanced offset). -/
theorem transcript_invariants (fd : Int) (nid : Nat)
    (es : List TranscriptEv) (st : TranscriptRun)
    (hrun : (TranscriptRun.init fd nid).run es = some st) :
    st.inflight.length ≤ 1
    ∧ (st.ts.bufs_to_be_flushed ≠ [] → st.ts.flushing = true)
    ∧ offsDesc st.subsRev = true
    ∧ (∀ e ∈ st.subsRev, e.2.2 = e.1) := by
  have hgen : ∀ (evs : List TranscriptEv) (s0 s1 : TranscriptRun), TInv s0 →
      s0.run evs = some s1 → TInv s1 := by
    intro evs
    induction evs with
    | nil =>
      intro s0 s1 h0 hr
      simp only [TranscriptRun.run, Option.some.injEq] at hr
      subst hr
      exact h0
    | cons e rest ih =>
      intro s0 s1 h0 hr
      simp only [TranscriptRun.run] at hr
      cases hs : s0.step e with
      | none => rw [hs] at hr; simp at hr
      | some s2 =>
        rw [hs] at hr
        have h2 : TInv s2 := by
          cases e with
          | append b => exact TInv_append s0 b s2 h0 hs
          | teardown => exact TInv_teardown s0 s2 h0 hs
          | complete r => exact TInv_complete s0 r s2 h0 hs
        exact ih s2 s1 h2 hr
  have hinit : TInv (TranscriptRun.init fd nid) := by
    refine ⟨rfl, by simp [TranscriptRun.init], by simp [TranscriptRun.init],
      rfl, rfl, by simp [TranscriptRun.init], by simp [TranscriptRun.init, headOk]⟩
  have h := hgen es _ st hinit hrun
  exact ⟨h.2.1, h.2.2.1, h.2.2.2.2.1, h.2.2.2.2.2.1⟩

/-- Witness for C5 at a concrete trace: append 3 bytes, tear down (one
flush write submitted at offset 0), and complete it with 3 bytes written. -/
theorem transcript_invariants_witness :
    ((⟨⟨2, [Action.Write 7 [1, 2, 3] 0 1]⟩, ⟨7, 3, [], false, []⟩, [], 3,
        [(0, 3, 0)]⟩ : TranscriptRun)).inflight.length ≤ 1
    ∧ (((⟨⟨2, [Action.Write 7 [1, 2, 3] 0 1]⟩, ⟨7, 3, [], false, []⟩, [], 3,
        [(0, 3, 0)]⟩ : TranscriptRun)).ts.bufs_to_be_flushed ≠ [] →
        ((⟨⟨2, [Action.Write 7 [1, 2, 3] 0 1]⟩, ⟨7, 3, [], false, []⟩, [], 3,
          [(0, 3, 0)]⟩ : TranscriptRun)).ts.flushing = true)
    ∧ offsDesc ((⟨⟨2, [Action.Write 7 [1, 2, 3] 0 1]⟩, ⟨7, 3, [], false, []⟩,
        [], 3, [(0, 3, 0)]⟩ : TranscriptRun)).subsRev = true
    ∧ (∀ e ∈ ((⟨⟨2, [Action.Write 7 [1, 2, 3] 0 1]⟩, ⟨7, 3, [], false, []⟩,
        [], 3, [(0, 3, 0)]⟩ : TranscriptRun)).subsRev, e.2.2 = e.1) :=
  transcript_invariants 7 1
    [TranscriptEv.append [1, 2, 3], TranscriptEv.teardown,
     TranscriptEv.complete 3]
    ⟨⟨2, [Action.Write 7 [1, 2, 3] 0 1]⟩, ⟨7, 3, [], false, []⟩, [], 3,
      [(0, 3, 0)]⟩ rfl

end Muserial
